import Mathlib

/-
Verification of the hobnob workflow engine (flow runner, routing, retry,
executors, rendering, parsing) against its natural-language specification.
The Python sources are shallowly embedded: dictionaries are association
lists with string keys, text is a list of characters, exceptions are
`Except` errors, and external effects (network, sleeping, the observer
hook, the LLM and the JSON loader of the standard library) are explicit
oracles or traces.
-/

set_option autoImplicit false

namespace Hobnob

/-- Text is modelled as a list of characters. -/
abbrev Text := List Char

/-- Python-like values stored in the runtime state and produced by JSON
parsing: `None`, booleans, integers, strings, lists and dictionaries. -/
inductive PyVal where
  | none
  | bool (b : Bool)
  | int (n : Int)
  | str (s : String)
  | list (xs : List PyVal)
  | dict (fields : List (String × PyVal))

/-- A Python dictionary with string keys, modelled as an association list
(first binding of a key wins on lookup, mirroring unique-key dicts). -/
abbrev Dict := List (String × PyVal)

/-- Python truthiness of a value (`bool(v)`): `None`, `False`, `0`, the
empty string, the empty list and the empty dict are falsy. -/
def truthy : PyVal → Bool
  | .none => false
  | .bool b => b
  | .int n => n != 0
  | .str s => s != ""
  | .list xs => !xs.isEmpty
  | .dict fields => !fields.isEmpty

/-- A Python exception, identified by its message. -/
inductive PyExc where
  | exc (msg : String)
  | runtimeUnknownStep

/-- Embedding of the Python dict construction `{**d, **u}`: every key of
`d` keeps its position, with its value overridden by `u` where `u` binds
the same key; keys of `u` not present in `d` are appended in order. -/
def pyMerge (d u : Dict) : Dict :=
  (d.map fun p => (p.1, ((List.lookup p.1 u).getD p.2))) ++
    u.filter fun p => (List.lookup p.1 d).isNone

/-! ### Routing (`FlowRunner._router_factory`, src/hobnob/core.py)

A transition record carries the source step (unused by the router), an
optional condition expression and a target; the router embeds the closure
`_route`. Condition checking (`router.check`) is an oracle returning
either a boolean or a raised exception. The terminal marker `END` is
modelled as `Option.none`. -/

/-- A transition of the flow definition: `{from, to, condition}`. The
`from` and `to` fields are named `src` and `target` because those words are reserved in Lean. -/
structure Transition where
  src : String
  target : Option String
  cond : Option String

/-- Embedding of `target or END`: a falsy target (`None` or the empty
string) becomes the terminal marker. -/
def toTarget : Option String → Option String
  | Option.none => Option.none
  | some s => if s = "" then Option.none else some s

/-- Embedding of the `_route` closure produced by
`FlowRunner._router_factory`: transitions are scanned in declaration
order; an unconditional transition or one whose condition checks truthy
returns its target; a raised condition is logged and skipped; if the list
is exhausted, the terminal marker is returned. -/
def route (check : String → Dict → Except PyExc Bool) :
    List Transition → Dict → Option String
  | [], _ => Option.none
  | tr :: rest, st =>
    match tr.cond with
    | Option.none => toTarget tr.target
    | some c =>
      match check c st with
      | .ok true => toTarget tr.target
      | .ok false => route check rest st
      | .error _ => route check rest st

/-- A transition matches in a state when it is unconditional or its
condition evaluates truthy; a raised condition does not match. -/
def matchesTr (check : String → Dict → Except PyExc Bool) (st : Dict)
    (tr : Transition) : Bool :=
  match tr.cond with
  | Option.none => true
  | some c =>
    match check c st with
    | .ok true => true
    | _ => false

/-! ### Condition routers (src/hobnob/routers.py) -/

/-- An error raised by a condition router: the safety `RuntimeError` of
the disabled `EvalRouter`, or a propagated evaluation exception. -/
inductive RouterErr where
  | safety (msg : String)
  | exc (e : PyExc)

/-- Embedding of `EvalRouter.check`: if the `enabled` flag is unset the
safety `RuntimeError` is raised; otherwise the expression is evaluated by
the `evalFn` oracle (Python `eval`) and the result's truthiness returned.
The second component of the result is the trace of expressions actually
handed to `eval`. -/
def evalRouterCheck (enabled : Bool)
    (evalFn : String → Dict → Except PyExc PyVal)
    (cond : String) (st : Dict) : Except RouterErr Bool × List String :=
  if enabled then
    match evalFn cond st with
    | .ok v => (.ok (truthy v), [cond])
    | .error e => (.error (.exc e), [cond])
  else
    (.error (.safety "EvalRouter is disabled for safety. Set EvalRouter.enabled = True to use (not recommended for production)."), [])

/-! ### Web search step (`WebSearchStep`, src/hobnob/executors.py) -/

/-- Embedding of `WebSearchStep.__call__`: the query is read from the
state under `queryKey` (default `""` when absent); a falsy query returns
the state unchanged without any request. Otherwise the HTTP GET is the
`fetch` oracle (from query to the decoded JSON body or a raised
exception); `data.get("AbstractText") or ""` is stored under `resultKey`.
The second component is the trace of outbound requests (their queries). -/
def webSearchCall (queryKey resultKey : String)
    (fetch : PyVal → Except PyExc PyVal) (st : Dict) :
    Except PyExc Dict × List PyVal :=
  let query := (List.lookup queryKey st).getD (.str "")
  if truthy query then
    match fetch query with
    | .error e => (.error e, [query])
    | .ok (.dict d) =>
      let text :=
        let v := (List.lookup "AbstractText" d).getD .none
        if truthy v then v else .str ""
      (.ok (pyMerge st [(resultKey, text)]), [query])
    | .ok _ => (.error (.exc "AttributeError"), [query])
  else
    (.ok st, [])

/-- Embedding of the `WebSearchStep` constructor defaults:
`cfg.get("query_key", "query")` and `cfg.get("result_key", "results")`. -/
def webSearchKeys (queryKeyCfg resultKeyCfg : Option String) : String × String :=
  (queryKeyCfg.getD "query", resultKeyCfg.getD "results")

end Hobnob

namespace Hobnob

/-- A concrete condition checker for which every expression is truthy. -/
def checkAllTrue : String → Dict → Except PyExc Bool := fun _ _ => .ok true

/-- Concrete transitions `[{cond: C1, to: A}, {cond: C2, to: B}]`. -/
def twoCondTrs : List Transition :=
  [⟨"s", some "A", some "C1"⟩, ⟨"s", some "B", some "C2"⟩]

/-! ### Retry/backoff wrapper (`FlowRunner._make_executor`, src/hobnob/core.py)

The closure `_fn` retries `_run_once` up to `max_attempts` times.
`_run_once` constructs a fresh executor from the factory on every attempt
and applies it to the input state, so an attempt's behaviour is modelled
as an oracle `f : Nat → Except PyExc Dict` from the (1-based) attempt
number to that fresh executor's outcome on the given state. The wrapper's
observable effects are collected in an explicit trace. -/

/-- Observable outcome of the retry wrapper `_fn`: the returned state or
re-raised exception, the number of executor invocations, the list of
performed `time.sleep` durations, and the observer-hook calls
`(step_name, out)` in order. -/
structure RetryOut where
  result : Except PyExc Dict
  invocations : Nat
  sleeps : List ℚ
  observed : List (String × Dict)

/-- Embedding of the retry loop of `_fn`, with `fuel` the number of
attempts still allowed and `idx` the current attempt number. A success
returns the output after reporting it to the observer hook; a failure on
the last allowed attempt re-raises; an earlier failure sleeps `backoff`
seconds (only when positive, as in the source) and retries. With zero
fuel the loop body never runs and the dead fallback
`raise last_exc if last_exc else RuntimeError` fires. -/
def retryGo (name : String) (backoff : ℚ) (f : Nat → Except PyExc Dict) :
    Nat → Nat → RetryOut
  | 0, _ => ⟨.error .runtimeUnknownStep, 0, [], []⟩
  | fuel + 1, idx =>
    match f idx with
    | .ok out => ⟨.ok out, 1, [], [(name, out)]⟩
    | .error e =>
      match fuel with
      | 0 => ⟨.error e, 1, [], []⟩
      | fuel' + 1 =>
        let r := retryGo name backoff f (fuel' + 1) (idx + 1)
        ⟨r.result, r.invocations + 1,
          (if 0 < backoff then [backoff] else []) ++ r.sleeps, r.observed⟩

/-- Embedding of `_fn` for a step named `name` with an effective policy
of `maxAttempts` and `backoff`: the loop starts at attempt 1 with
`maxAttempts` attempts allowed. -/
def retryRun (name : String) (maxAttempts : Nat) (backoff : ℚ)
    (f : Nat → Except PyExc Dict) : RetryOut :=
  retryGo name backoff f maxAttempts 1

/-- Embedding of `int(retry_cfg.get("max_attempts", 1) or 1)`: an absent
or falsy (zero) configured value yields 1. -/
def effMaxAttempts : Option Nat → Nat
  | Option.none => 1
  | some 0 => 1
  | some n => n

/-- A concrete attempt oracle that fails on the first call and succeeds
on the second. -/
def failThenOk : Nat → Except PyExc Dict := fun m =>
  if m = 1 then .error (.exc "boom") else .ok [("foo", PyVal.str "ok")]

/-- A concrete partial update `{b: 3}` returned by an executor. -/
def partialUpd : Dict := [("b", PyVal.int 3)]

/-- A concrete previous state `{a: 1, b: 2}`. -/
def prevState : Dict := [("a", PyVal.int 1), ("b", PyVal.int 2)]

/-! ### Output parser (`JsonParser.parse`, src/hobnob/parsing.py)

The parser searches the text with the regex `\x7b.*\x7d` under `DOTALL`
and hands the match (or, failing one, the whole text) to `json.loads`.
With `DOTALL` and a greedy `.*`, the leftmost-longest match runs from the
first opening brace to the last closing brace of the whole text, provided
the first opening brace precedes the last closing brace. The standard
library `json.loads` is an oracle parameter `loads`. -/

/-- The opening-brace character. -/
def lbrace : Char := Char.ofNat 123

/-- The closing-brace character. -/
def rbrace : Char := Char.ofNat 125

/-- Index of the first character satisfying `p`, if any. -/
def firstIdx (p : Char → Bool) : Text → Option Nat
  | [] => Option.none
  | c :: cs => if p c then some 0 else (firstIdx p cs).map (· + 1)

/-- Embedding of `re.search(r"\x7b.*\x7d", text, re.DOTALL)` followed by
`match.group(0) if match else text`: the span from the first opening
brace to the last closing brace when the former precedes the latter,
otherwise the whole text. -/
def extractTarget (cs : Text) : Text :=
  match firstIdx (· == lbrace) cs, firstIdx (· == rbrace) cs.reverse with
  | some i, some jr =>
    if i < cs.length - 1 - jr then (cs.drop i).take (cs.length - 1 - jr - i + 1)
    else cs
  | _, _ => cs

/-- Whether the regex `\x7b.*\x7d` matches the text at all. -/
def hasSpan (cs : Text) : Bool :=
  match firstIdx (· == lbrace) cs, firstIdx (· == rbrace) cs.reverse with
  | some i, some jr => decide (i < cs.length - 1 - jr)
  | _, _ => false

/-- Embedding of `JsonParser.parse`: `json.loads` (the `loads` oracle) is
applied to the greedy brace span when one exists, and to the whole text
otherwise; a parse failure propagates as the raised exception. -/
def jsonParse (loads : Text → Except PyExc PyVal) (text : Text) :
    Except PyExc PyVal :=
  loads (extractTarget text)

/-- A concrete `json.loads` oracle that recognises exactly the object
text of the C6 example. -/
def loadsDemo : Text → Except PyExc PyVal := fun cs =>
  if cs = "\x7b\"x\": 1\x7d".toList then .ok (.dict [("x", PyVal.int 1)])
  else .error (.exc "JSONDecodeError")

/-! ### Prompt renderer (`PromptRenderer.render`, src/hobnob/rendering.py)

The renderer concatenates optional blocks and a final task block produced
by `prompt.format(**state)`. Python `str.format` is embedded for plain
named placeholders: `\x7b\x7b` and `\x7d\x7d` are literal braces, a
placeholder name runs from an opening brace to the next closing brace,
a missing closing brace or a lone closing brace is a template error, and
a name absent from the state raises `KeyError` (the spec's
`MissingStateField`). Substituted values are rendered by `str()`. -/

/-- The single-quote character used by Python `repr` of strings. -/
def squote : Char := Char.ofNat 39

/-- Comma-space joining of rendered items, as in Python `repr` output. -/
def joinComma (ts : List Text) : Text := List.intercalate (", ".toList) ts

mutual

/-- Python `repr` of a value (as far as the embedded value grammar
reaches): `None`, `True`/`False`, decimal integers, single-quoted
strings, bracketed lists and braced dicts. -/
def pyRepr : PyVal → Text
  | .none => "None".toList
  | .bool true => "True".toList
  | .bool false => "False".toList
  | .int n => (toString n).toList
  | .str s => squote :: s.toList ++ [squote]
  | .list xs => '[' :: joinComma (pyReprList xs) ++ [']']
  | .dict fs => lbrace :: joinComma (pyReprDict fs) ++ [rbrace]

/-- Representations of the items of a list value. -/
def pyReprList : List PyVal → List Text
  | [] => []
  | v :: vs => pyRepr v :: pyReprList vs

/-- Representations of the entries of a dict value. -/
def pyReprDict : List (String × PyVal) → List Text
  | [] => []
  | (k, v) :: fs =>
    (squote :: k.toList ++ squote :: ':' :: ' ' :: pyRepr v) :: pyReprDict fs

end

/-- Python `str()` of a value as used by format substitution: strings
render verbatim, everything else as its `repr`. -/
def pyStr : PyVal → Text
  | .str s => s.toList
  | v => pyRepr v

/-- A failure of `str.format`: a referenced field absent from the state
(Python `KeyError`, the spec's `MissingStateField`), or a malformed
template (Python `ValueError` for an unmatched brace). -/
inductive FmtErr where
  | missingField (f : String)
  | badTemplate

/-- Embedding of `prompt.format(**state)` for plain named placeholders,
with fuel bounding the number of scanning steps (the template's length
suffices). -/
def fmtGo (st : Dict) : Nat → Text → Except FmtErr Text
  | _, [] => .ok []
  | 0, _ :: _ => .error .badTemplate
  | fuel + 1, c :: rest =>
    if c == lbrace then
      if rest.head? == some lbrace then
        (fun s => lbrace :: s) <$> fmtGo st fuel rest.tail
      else
        if (rest.dropWhile (fun x => !(x == rbrace))).isEmpty then
          .error .badTemplate
        else
          match List.lookup ((rest.takeWhile (fun x => !(x == rbrace))).asString) st with
          | some v =>
            (fun s => pyStr v ++ s) <$>
              fmtGo st fuel (rest.dropWhile (fun x => !(x == rbrace))).tail
          | Option.none =>
            .error (.missingField ((rest.takeWhile (fun x => !(x == rbrace))).asString))
    else if c == rbrace then
      if rest.head? == some rbrace then
        (fun s => rbrace :: s) <$> fmtGo st fuel rest.tail
      else .error .badTemplate
    else
      (fun s => c :: s) <$> fmtGo st fuel rest

/-- Embedding of `template.format(**state)`. -/
def pyFormat (template : String) (st : Dict) : Except FmtErr Text :=
  fmtGo st template.toList.length template.toList

/-- The placeholder names a template references, in scanning order,
collected by the same scan as `fmtGo` and cut off at the first
malformation (where `str.format` raises before reading further). -/
def refsGo : Nat → Text → List String
  | _, [] => []
  | 0, _ :: _ => []
  | fuel + 1, c :: rest =>
    if c == lbrace then
      if rest.head? == some lbrace then refsGo fuel rest.tail
      else
        if (rest.dropWhile (fun x => !(x == rbrace))).isEmpty then []
        else
          (rest.takeWhile (fun x => !(x == rbrace))).asString ::
            refsGo fuel (rest.dropWhile (fun x => !(x == rbrace))).tail
    else if c == rbrace then
      if rest.head? == some rbrace then refsGo fuel rest.tail
      else []
    else refsGo fuel rest

/-- The fields referenced by a prompt template. -/
def templateRefs (template : String) : List String :=
  refsGo template.toList.length template.toList

/-- Embedding of Python `str.strip()`: leading and trailing whitespace
removed. -/
def pyStrip (cs : Text) : Text :=
  ((cs.dropWhile Char.isWhitespace).reverse.dropWhile Char.isWhitespace).reverse

/-- Configuration of a step as read by the renderer; absent optional
entries are the falsy defaults. -/
structure StepCfg where
  context : String := ""
  examples : List (PyVal × PyVal) := []
  instructions : String := ""
  output_format : String := ""
  prompt : String := ""

/-- Embedding of the renderer's example loop: for each `(input, output)`
pair, numbered from 1, three parts are appended, with the pairs
serialised by the `dumps` oracle (`json.dumps(..., indent=2)`). -/
def exampleParts (dumps : PyVal → Text) : Nat → List (PyVal × PyVal) → List Text
  | _, [] => []
  | i, (inp, outp) :: rest =>
    ("\nExample " ++ toString i ++ ":").toList ::
      ("\nInput: ".toList ++ dumps inp) ::
      ("\nOutput: ".toList ++ dumps outp ++ "\n".toList) ::
      exampleParts dumps (i + 1) rest

/-- Embedding of `PromptRenderer.render`: optional system, context,
examples, instructions and output-format blocks, then the task block
obtained by formatting the prompt template against the state; the parts
are joined with newlines and stripped. A truthiness test guards each
block, so an empty prompt template is never formatted. -/
def render (systemPrompt : String) (dumps : PyVal → Text) (cfg : StepCfg)
    (st : Dict) : Except FmtErr Text :=
  let p1 : List Text :=
    if systemPrompt ≠ "" then [("SYSTEM: " ++ systemPrompt ++ "\n").toList] else []
  let p2 : List Text :=
    if cfg.context ≠ "" then [("CONTEXT: " ++ cfg.context ++ "\n").toList] else []
  let p3 : List Text :=
    if cfg.examples.isEmpty then []
    else "EXAMPLES:".toList :: exampleParts dumps 1 cfg.examples
  let p4 : List Text :=
    if cfg.instructions ≠ "" then
      [("INSTRUCTIONS: " ++ cfg.instructions ++ "\n").toList] else []
  let p5 : List Text :=
    if cfg.output_format ≠ "" then
      [("OUTPUT FORMAT: " ++ cfg.output_format ++ "\n").toList] else []
  if cfg.prompt ≠ "" then
    match pyFormat cfg.prompt st with
    | .error e => .error e
    | .ok t =>
      .ok (pyStrip (List.intercalate "\n".toList
        (p1 ++ p2 ++ p3 ++ p4 ++ p5 ++ ["CURRENT TASK:\n".toList ++ t])))
  else
    .ok (pyStrip (List.intercalate "\n".toList (p1 ++ p2 ++ p3 ++ p4 ++ p5)))

/-- A step configuration whose prompt template is `n=\x7bn\x7d`. -/
def promptCfgN : StepCfg := { prompt := "n=\x7bn\x7d" }

/-! ### LLM step (`LLMStep.__call__`, src/hobnob/executors.py)

The step renders the prompt, hands it to the model (the `invoke` oracle,
returning the response's textual content), parses the content with the
JSON parser, and returns `\x7b**state, **updates\x7d` — the full input
state shallow-merged with the parsed updates. Spreading a non-dict
parse result raises `TypeError`. -/

/-- An error escaping an LLM step: a rendering failure or a Python
exception from parsing or merging. -/
inductive StepErr where
  | fmt (e : FmtErr)
  | exc (e : PyExc)

/-- Embedding of `LLMStep.__call__`. -/
def llmStepCall (systemPrompt : String) (dumps : PyVal → Text)
    (cfg : StepCfg) (invoke : Text → Text)
    (loads : Text → Except PyExc PyVal) (st : Dict) : Except StepErr Dict :=
  match render systemPrompt dumps cfg st with
  | .error e => .error (.fmt e)
  | .ok prompt =>
    match jsonParse loads (invoke prompt) with
    | .error e => .error (.exc e)
    | .ok (.dict u) => .ok (pyMerge st u)
    | .ok _ => .error (.exc (.exc "TypeError"))

/-- The concrete parsed updates `\x7bb: 3, c: 4\x7d`. -/
def updC3 : Dict := [("b", PyVal.int 3), ("c", PyVal.int 4)]

/-- A concrete model oracle answering with the JSON text of `updC3`. -/
def invokeC3 : Text → Text := fun _ => "\x7b\"b\": 3, \"c\": 4\x7d".toList

/-- A concrete `json.loads` oracle recognising exactly that JSON text. -/
def loadsC3 : Text → Except PyExc PyVal := fun cs =>
  if cs = "\x7b\"b\": 3, \"c\": 4\x7d".toList then .ok (.dict updC3)
  else .error (.exc "JSONDecodeError")

end Hobnob

namespace Hobnob

/-- The router returns the target of the first matching transition
(declaration order), and the terminal marker when none matches. -/
theorem route_eq_find (check : String → Dict → Except PyExc Bool)
    (conds : List Transition) (st : Dict) :
    route check conds st =
      (conds.find? (matchesTr check st)).bind fun tr => toTarget tr.target := by
  induction conds with
  | nil => rfl
  | cons tr rest ih =>
    simp only [route, List.find?]
    cases h : tr.cond with
    | none => simp [matchesTr, h]
    | some c =>
      cases hc : check c st with
      | ok b =>
        cases b with
        | true => simp [matchesTr, h, hc]
        | false => simp [matchesTr, h, hc, ih]
      | error e => simp [matchesTr, h, hc, ih]

/-- C1: transitions are evaluated in declaration order; the first
unconditional or truthy-conditioned transition determines the target; if
none matches the router returns the terminal marker; in particular with
`[{cond: C1, to: A}, {cond: C2, to: B}]` and both conditions truthy, the
router returns `A`. -/
theorem router_declaration_order :
    (∀ (check : String → Dict → Except PyExc Bool)
        (conds : List Transition) (st : Dict),
      route check conds st =
        (conds.find? (matchesTr check st)).bind fun tr => toTarget tr.target) ∧
    route checkAllTrue twoCondTrs [] = some "A" := by
  exact ⟨route_eq_find, rfl⟩

/-- C8: invoking the disabled eval-based condition router raises the
safety error, evaluates no expression (the evaluation trace is empty) and
its outcome does not depend on the `eval` oracle at all. -/
theorem eval_router_disabled_safety :
    ∀ (evalFn : String → Dict → Except PyExc PyVal) (cond : String) (st : Dict),
      evalRouterCheck false evalFn cond st =
        (.error (.safety "EvalRouter is disabled for safety. Set EvalRouter.enabled = True to use (not recommended for production)."), []) := by
  intro evalFn cond st
  rfl

/-- C9: a transition whose condition raises during evaluation is skipped
(routing continues with the remaining transitions in declaration order),
and when every transition's condition raises the router returns the
terminal marker. -/
theorem raising_condition_skipped :
    (∀ (check : String → Dict → Except PyExc Bool) (tr : Transition)
        (rest : List Transition) (st : Dict) (c : String) (e : PyExc),
      tr.cond = some c → check c st = .error e →
      route check (tr :: rest) st = route check rest st) ∧
    (∀ (check : String → Dict → Except PyExc Bool)
        (conds : List Transition) (st : Dict),
      (∀ tr ∈ conds, ∃ c e, tr.cond = some c ∧ check c st = .error e) →
      route check conds st = Option.none) := by
  constructor
  · intro check tr rest st c e hc he
    simp [route, hc, he]
  · intro check conds st h
    induction conds with
    | nil => rfl
    | cons tr rest ih =>
      obtain ⟨c, e, hc, he⟩ := h tr (List.mem_cons_self tr rest)
      have hrest := ih fun tr' h' => h tr' (List.mem_cons_of_mem tr h')
      simp [route, hc, he, hrest]

/-- Closed instance of C9: both a skipped raising condition and the
all-raising terminal case at concrete inputs. -/
theorem raising_condition_skipped_witness :
    route (fun _ _ => .error (.exc "boom")) twoCondTrs [] = Option.none := by
  have h := raising_condition_skipped.2 (fun _ _ => .error (.exc "boom"))
    twoCondTrs []
  exact h (by intro tr htr; fin_cases htr <;> exact ⟨_, _, rfl, rfl⟩)

/-- C10: when the configured query field is absent from the state or
holds a falsy value, the web-search step returns the state unchanged and
issues no outbound request. -/
theorem web_search_falsy_query_noop
    (queryKey resultKey : String) (fetch : PyVal → Except PyExc PyVal)
    (st : Dict)
    (h : List.lookup queryKey st = Option.none ∨
      ∃ v, List.lookup queryKey st = some v ∧ truthy v = false) :
    webSearchCall queryKey resultKey fetch st = (.ok st, []) := by
  unfold webSearchCall
  rcases h with h | ⟨v, hv, htr⟩
  · simp [h, truthy]
  · simp [hv, htr]

/-- Closed instance of C10: a state holding the empty string under the
default query key is returned unchanged with no request. -/
theorem web_search_falsy_query_noop_witness :
    webSearchCall "query" "results" (fun _ => .error (.exc "net"))
      [("query", .str "")] = (.ok [("query", .str "")], []) := by
  exact web_search_falsy_query_noop "query" "results" _ _
    (Or.inr ⟨.str "", by rfl, by rfl⟩)

/-- One-step unfolding of the retry loop on a successful attempt. -/
theorem retryGo_ok (name : String) (b : ℚ) (f : Nat → Except PyExc Dict)
    {fuel idx : Nat} {out : Dict} (h : f idx = .ok out) :
    retryGo name b f (fuel + 1) idx = ⟨.ok out, 1, [], [(name, out)]⟩ := by
  rw [retryGo, h]

/-- One-step unfolding of the retry loop on a failing final attempt. -/
theorem retryGo_err_last (name : String) (b : ℚ)
    (f : Nat → Except PyExc Dict) {idx : Nat} {e : PyExc}
    (h : f idx = .error e) :
    retryGo name b f 1 idx = ⟨.error e, 1, [], []⟩ := by
  rw [retryGo, h]

/-- One-step unfolding of the retry loop on a failing non-final attempt:
it sleeps (when the backoff is positive) and retries. -/
theorem retryGo_err_step (name : String) (b : ℚ)
    (f : Nat → Except PyExc Dict) {fuel idx : Nat} {e : PyExc}
    (h : f idx = .error e) :
    retryGo name b f (fuel + 2) idx =
      ⟨(retryGo name b f (fuel + 1) (idx + 1)).result,
        (retryGo name b f (fuel + 1) (idx + 1)).invocations + 1,
        (if 0 < b then [b] else []) ++
          (retryGo name b f (fuel + 1) (idx + 1)).sleeps,
        (retryGo name b f (fuel + 1) (idx + 1)).observed⟩ := by
  rw [retryGo, h]

/-- The retry loop performs at most `fuel` executor invocations. -/
theorem retryGo_invocations_le (name : String) (b : ℚ)
    (f : Nat → Except PyExc Dict) :
    ∀ fuel idx, (retryGo name b f fuel idx).invocations ≤ fuel := by
  intro fuel
  induction fuel with
  | zero => intro idx; exact Nat.le_refl 0
  | succ fuel ih =>
    intro idx
    cases hf : f idx with
    | ok out =>
      rw [retryGo_ok name b f hf]
      exact Nat.le_add_left 1 fuel
    | error e =>
      cases fuel with
      | zero =>
        rw [retryGo_err_last name b f hf]
      | succ fuel' =>
        rw [retryGo_err_step name b f hf]
        exact Nat.add_le_add_right (ih (idx + 1)) 1

/-- When attempts `idx, …, k-1` fail and attempt `k` succeeds within the
allowed fuel, the retry loop returns the success, invokes the executor
`k - idx + 1` times, sleeps `backoff` between consecutive attempts only,
and reports the output once to the observer hook. -/
theorem retryGo_success (name : String) (b : ℚ)
    (f : Nat → Except PyExc Dict) :
    ∀ fuel idx k out, idx ≤ k → k < idx + fuel →
      (∀ m, idx ≤ m → m < k → ∃ e, f m = .error e) → f k = .ok out →
      retryGo name b f fuel idx =
        ⟨.ok out, k - idx + 1,
          if 0 < b then List.replicate (k - idx) b else [], [(name, out)]⟩ := by
  intro fuel
  induction fuel with
  | zero => intro idx k out h1 h2 _ _; omega
  | succ fuel ih =>
    intro idx k out h1 h2 herr hok
    by_cases hik : k = idx
    · subst hik
      rw [retryGo_ok name b f hok]
      simp [Nat.sub_self]
    · have hlt : idx < k := Nat.lt_of_le_of_ne h1 fun h => hik h.symm
      obtain ⟨e, he⟩ := herr idx (Nat.le_refl idx) hlt
      obtain ⟨fuel', rfl⟩ : ∃ fuel', fuel = fuel' + 1 :=
        ⟨fuel - 1, by omega⟩
      have hr := ih (idx + 1) k out (by omega) (by omega)
        (fun m hm1 hm2 => herr m (by omega) hm2) hok
      rw [retryGo_err_step name b f he, hr]
      simp only [RetryOut.mk.injEq]
      refine ⟨trivial, by omega, ?_, trivial⟩
      by_cases hb : 0 < b
      · simp only [hb, if_pos]
        have hkk : k - idx = (k - (idx + 1)) + 1 := by omega
        rw [hkk, List.replicate_succ]
        rfl
      · simp [hb]

/-- When every attempt up to the fuel bound fails, the retry loop
re-raises the exception of the final attempt, invokes the executor
exactly `fuel` times, sleeps between consecutive attempts but not after
the final one, and never calls the observer hook. -/
theorem retryGo_allfail (name : String) (b : ℚ)
    (f : Nat → Except PyExc Dict) :
    ∀ fuel idx e, 1 ≤ fuel →
      (∀ m, idx ≤ m → m < idx + fuel - 1 → ∃ er, f m = .error er) →
      f (idx + fuel - 1) = .error e →
      retryGo name b f fuel idx =
        ⟨.error e, fuel,
          if 0 < b then List.replicate (fuel - 1) b else [], []⟩ := by
  intro fuel
  induction fuel with
  | zero => intro idx e h1; omega
  | succ fuel ih =>
    intro idx e _ herr hlast
    cases fuel with
    | zero =>
      have hidx : idx + 1 - 1 = idx := by omega
      rw [hidx] at hlast
      rw [retryGo_err_last name b f hlast]
      simp
    | succ fuel' =>
      obtain ⟨e0, he0⟩ := herr idx (Nat.le_refl idx) (by omega)
      have hr := ih (idx + 1) e (by omega)
        (fun m hm1 hm2 => herr m (by omega) (by omega))
        (by have heq : idx + 1 + (fuel' + 1) - 1 = idx + (fuel' + 1 + 1) - 1 := by
              omega
            rw [heq]; exact hlast)
      rw [retryGo_err_step name b f he0, hr]
      simp only [RetryOut.mk.injEq]
      refine ⟨trivial, trivial, ?_, trivial⟩
      by_cases hb : 0 < b
      · simp only [hb, if_pos]
        have heq : fuel' + 1 + 1 - 1 = (fuel' + 1 - 1) + 1 := by omega
        rw [heq, List.replicate_succ]
        rfl
      · simp [hb]

/-- C2: the retry wrapper invokes a fresh executor at most `n` times;
when earlier attempts fail and attempt `k ≤ n` succeeds it returns that
result after `k` invocations, sleeping `backoff` between consecutive
attempts only; when all `n` attempts fail it re-raises the last
exception after exactly `n` invocations with no sleep after the final
attempt; and concretely, a step failing once then succeeding under
`max_attempts = 2, backoff = 0` returns the success with the executor
invoked exactly twice. -/
theorem retry_wrapper_spec :
    (∀ (name : String) (n : Nat) (b : ℚ) (f : Nat → Except PyExc Dict),
      (retryRun name n b f).invocations ≤ n) ∧
    (∀ (name : String) (n : Nat) (b : ℚ) (f : Nat → Except PyExc Dict)
        (k : Nat) (out : Dict), 1 ≤ k → k ≤ n →
      (∀ m, 1 ≤ m → m < k → ∃ e, f m = .error e) → f k = .ok out →
      retryRun name n b f =
        ⟨.ok out, k, if 0 < b then List.replicate (k - 1) b else [],
          [(name, out)]⟩) ∧
    (∀ (name : String) (n : Nat) (b : ℚ) (f : Nat → Except PyExc Dict)
        (e : PyExc), 1 ≤ n →
      (∀ m, 1 ≤ m → m < n → ∃ er, f m = .error er) → f n = .error e →
      retryRun name n b f =
        ⟨.error e, n, if 0 < b then List.replicate (n - 1) b else [], []⟩) ∧
    retryRun "test" 2 0 failThenOk =
      ⟨.ok [("foo", PyVal.str "ok")], 2, [], [("test", [("foo", PyVal.str "ok")])]⟩ := by
  refine ⟨fun name n b f => retryGo_invocations_le name b f n 1,
    fun name n b f k out h1 h2 herr hok => ?_,
    fun name n b f e h1 herr hlast => ?_, ?_⟩
  · have h := retryGo_success name b f n 1 k out h1 (by omega) herr hok
    have hk : k - 1 + 1 = k := by omega
    rw [retryRun, h, hk]
  · have h := retryGo_allfail name b f n 1 e h1
      (fun m hm1 hm2 => herr m hm1 (by omega))
      (by have : 1 + n - 1 = n := by omega
          rw [this]; exact hlast)
    rw [retryRun, h]
  · rfl

/-- Closed instance of C2: the three general clauses applied to the
concrete fail-once-then-succeed executor with `max_attempts = 2` and
`backoff = 0`. -/
theorem retry_wrapper_spec_witness :
    retryRun "w" 2 0 failThenOk =
      ⟨.ok [("foo", PyVal.str "ok")], 2, [], [("w", [("foo", PyVal.str "ok")])]⟩ := by
  exact retry_wrapper_spec.2.1 "w" 2 0 failThenOk 2 [("foo", PyVal.str "ok")]
    (by omega) (by omega)
    (fun m hm1 hm2 => ⟨.exc "boom", by
      have : m = 1 := by omega
      subst this; rfl⟩)
    rfl

/-- Whenever the retry wrapper returns successfully, the observer hook
was called exactly once, with the step name and the executor's raw
returned mapping. -/
theorem retryGo_ok_observed (name : String) (b : ℚ)
    (f : Nat → Except PyExc Dict) :
    ∀ fuel idx out, (retryGo name b f fuel idx).result = .ok out →
      (retryGo name b f fuel idx).observed = [(name, out)] := by
  intro fuel
  induction fuel with
  | zero => intro idx out h; exact absurd h (by simp [retryGo])
  | succ fuel ih =>
    intro idx out h
    cases hf : f idx with
    | ok o =>
      rw [retryGo_ok name b f hf] at h ⊢
      have ho : o = out := by simpa using h
      rw [ho]
    | error e =>
      cases fuel with
      | zero =>
        rw [retryGo_err_last name b f hf] at h
        exact absurd h (by simp)
      | succ fuel' =>
        rw [retryGo_err_step name b f hf] at h ⊢
        exact ih (idx + 1) out h

/-- C5 (amended): after a successful step execution, the wrapper invokes
the observer hook with `(step_name, out)` where `out` is the executor's
raw returned mapping — the engine performs no merge of its own before
the hook and no per-step revalidation. -/
theorem observer_raw_output_spec (name : String) (n : Nat) (b : ℚ)
    (f : Nat → Except PyExc Dict) (out : Dict)
    (h : (retryRun name n b f).result = .ok out) :
    (retryRun name n b f).observed = [(name, out)] := by
  exact retryGo_ok_observed name b f n 1 out h

/-- Closed instance of the amended C5 at a concrete executor. -/
theorem observer_raw_output_spec_witness :
    (retryRun "s" 1 0 (fun _ => .ok partialUpd)).observed =
      [("s", partialUpd)] := by
  exact observer_raw_output_spec "s" 1 0 (fun _ => .ok partialUpd)
    partialUpd rfl

/-- C5 fails as stated: for an executor that returns the partial update
`{b: 3}` from the state `{a: 1, b: 2}`, the observer hook receives
exactly that raw output, which differs from the merged state
`{a: 1, b: 3}` the claim prescribes. -/
theorem observer_merged_state_counterexample :
    (retryRun "s" 1 0 (fun _ => .ok partialUpd)).observed =
      [("s", partialUpd)] ∧
    partialUpd ≠ pyMerge prevState partialUpd := by
  refine ⟨rfl, fun h => ?_⟩
  have hlen := congrArg List.length h
  simp [partialUpd, prevState, pyMerge] at hlen

/-- When a prefix of the list fails the predicate and the next character
satisfies it, the first matching index is the prefix's length. -/
theorem firstIdx_first (p : Char → Bool) :
    ∀ (pre : Text) (c : Char) (rest : Text),
      (∀ x ∈ pre, p x = false) → p c = true →
      firstIdx p (pre ++ c :: rest) = some pre.length := by
  intro pre
  induction pre with
  | nil => intro c rest _ hc; simp [firstIdx, hc]
  | cons a pre ih =>
    intro c rest hpre hc
    have ha : p a = false := hpre a (List.mem_cons_self a pre)
    simp [firstIdx, ha,
      ih c rest (fun x hx => hpre x (List.mem_cons_of_mem a hx)) hc]

/-- On a text decomposed as `pre ++ brace-span ++ post` with no opening
brace in `pre` and no closing brace in `post`, the regex extraction
returns exactly the brace span. -/
theorem extractTarget_span (pre mid post : Text)
    (hpre : ∀ c ∈ pre, (c == lbrace) = false)
    (hpost : ∀ c ∈ post, (c == rbrace) = false) :
    extractTarget (pre ++ (lbrace :: mid ++ [rbrace]) ++ post) =
      lbrace :: mid ++ [rbrace] := by
  have hassoc : pre ++ (lbrace :: mid ++ [rbrace]) ++ post =
      pre ++ lbrace :: (mid ++ rbrace :: post) := by
    simp [List.append_assoc]
  have h1 : firstIdx (· == lbrace)
      (pre ++ (lbrace :: mid ++ [rbrace]) ++ post) = some pre.length := by
    rw [hassoc]
    exact firstIdx_first _ pre lbrace (mid ++ rbrace :: post) hpre
      (by simp)
  have hrev : (pre ++ (lbrace :: mid ++ [rbrace]) ++ post).reverse =
      post.reverse ++ rbrace :: (mid.reverse ++ lbrace :: pre.reverse) := by
    simp [List.append_assoc]
  have h2 : firstIdx (· == rbrace)
      (pre ++ (lbrace :: mid ++ [rbrace]) ++ post).reverse =
      some post.length := by
    rw [hrev]
    have := firstIdx_first (· == rbrace) post.reverse rbrace
      (mid.reverse ++ lbrace :: pre.reverse)
      (fun x hx => hpost x (List.mem_reverse.mp hx)) (by simp)
    simpa using this
  have hlen : (pre ++ (lbrace :: mid ++ [rbrace]) ++ post).length =
      pre.length + mid.length + 2 + post.length := by
    simp [List.length_append]
    omega
  unfold extractTarget
  rw [h1, h2]
  simp only [hlen]
  have hcond : pre.length <
      pre.length + mid.length + 2 + post.length - 1 - post.length := by
    omega
  rw [if_pos hcond]
  have htake : pre.length + mid.length + 2 + post.length - 1 - post.length -
      pre.length + 1 = mid.length + 2 := by omega
  rw [htake]
  have hdrop : (pre ++ (lbrace :: mid ++ [rbrace]) ++ post).drop pre.length =
      (lbrace :: mid ++ [rbrace]) ++ post := by
    rw [List.append_assoc]
    exact List.drop_left pre ((lbrace :: mid ++ [rbrace]) ++ post)
  rw [hdrop]
  have hxlen : (lbrace :: mid ++ [rbrace]).length = mid.length + 2 := by
    simp
  rw [← hxlen]
  exact List.take_left _ _

/-- C6: the parser applies `json.loads` to the greedy brace span (from
the first opening brace to the last closing brace) when one exists, to
the whole text when none exists, and propagates the loader's failure; in
particular any loader that parses the object text of
`prefix \x7b"x": 1\x7d suffix` yields that object's mapping. -/
theorem json_parse_span_spec :
    (∀ (loads : Text → Except PyExc PyVal) (pre mid post : Text),
      (∀ c ∈ pre, (c == lbrace) = false) →
      (∀ c ∈ post, (c == rbrace) = false) →
      jsonParse loads (pre ++ (lbrace :: mid ++ [rbrace]) ++ post) =
        loads (lbrace :: mid ++ [rbrace])) ∧
    (∀ (loads : Text → Except PyExc PyVal) (cs : Text),
      hasSpan cs = false → jsonParse loads cs = loads cs) ∧
    (∀ (loads : Text → Except PyExc PyVal) (v : PyVal),
      loads ("\x7b\"x\": 1\x7d".toList) = .ok v →
      jsonParse loads ("prefix \x7b\"x\": 1\x7d suffix".toList) = .ok v) := by
  refine ⟨fun loads pre mid post hpre hpost => ?_,
    fun loads cs h => ?_, fun loads v hv => ?_⟩
  · unfold jsonParse
    rw [extractTarget_span pre mid post hpre hpost]
  · unfold jsonParse
    unfold hasSpan at h
    cases h1 : firstIdx (· == lbrace) cs with
    | none => unfold extractTarget; rw [h1]
    | some i =>
      cases h2 : firstIdx (· == rbrace) cs.reverse with
      | none => unfold extractTarget; rw [h1, h2]
      | some jr =>
        rw [h1, h2] at h
        simp only [decide_eq_false_iff_not] at h
        unfold extractTarget
        rw [h1, h2]
        simp [if_neg h]
  · have hspan : extractTarget ("prefix \x7b\"x\": 1\x7d suffix".toList) =
        "\x7b\"x\": 1\x7d".toList := by rfl
    unfold jsonParse
    rw [hspan]
    exact hv

/-- Closed instance of C6: the concrete loader recognising the example
object applied to the example text, plus a no-span fallback instance. -/
theorem json_parse_span_spec_witness :
    jsonParse loadsDemo ("prefix \x7b\"x\": 1\x7d suffix".toList) =
      .ok (.dict [("x", PyVal.int 1)]) ∧
    jsonParse loadsDemo ("no braces here".toList) =
      loadsDemo ("no braces here".toList) := by
  constructor
  · exact json_parse_span_spec.2.2 loadsDemo (.dict [("x", PyVal.int 1)]) rfl
  · exact json_parse_span_spec.2.1 loadsDemo ("no braces here".toList)
      (by decide)

/-- One-step unfolding of the format scan on a nonempty template. -/
theorem fmtGo_succ_eq (st : Dict) (fuel : Nat) (c : Char) (rest : Text) :
    fmtGo st (fuel + 1) (c :: rest) =
      if c == lbrace then
        if rest.head? == some lbrace then
          (fun s => lbrace :: s) <$> fmtGo st fuel rest.tail
        else
          if (rest.dropWhile (fun x => !(x == rbrace))).isEmpty then
            .error .badTemplate
          else
            match List.lookup ((rest.takeWhile (fun x => !(x == rbrace))).asString) st with
            | some v =>
              (fun s => pyStr v ++ s) <$>
                fmtGo st fuel (rest.dropWhile (fun x => !(x == rbrace))).tail
            | Option.none =>
              .error (.missingField ((rest.takeWhile (fun x => !(x == rbrace))).asString))
      else if c == rbrace then
        if rest.head? == some rbrace then
          (fun s => rbrace :: s) <$> fmtGo st fuel rest.tail
        else .error .badTemplate
      else
        (fun s => c :: s) <$> fmtGo st fuel rest := rfl

/-- One-step unfolding of the reference scan on a nonempty template. -/
theorem refsGo_succ_eq (fuel : Nat) (c : Char) (rest : Text) :
    refsGo (fuel + 1) (c :: rest) =
      if c == lbrace then
        if rest.head? == some lbrace then refsGo fuel rest.tail
        else
          if (rest.dropWhile (fun x => !(x == rbrace))).isEmpty then []
          else
            (rest.takeWhile (fun x => !(x == rbrace))).asString ::
              refsGo fuel (rest.dropWhile (fun x => !(x == rbrace))).tail
      else if c == rbrace then
        if rest.head? == some rbrace then refsGo fuel rest.tail
        else []
      else refsGo fuel rest := rfl

/-- Mapping over a format result neither introduces nor removes a
missing-field error. -/
theorem exists_missing_map (g : Text → Text) (e : Except FmtErr Text) :
    (∃ f, (g <$> e) = .error (.missingField f)) ↔
      ∃ f, e = .error (.missingField f) := by
  cases e <;> simp [Except.map]

/-- The format scan fails with a missing-field error exactly when the
scan references a field absent from the state. -/
theorem fmtGo_missing_iff (st : Dict) :
    ∀ fuel cs, (∃ f, fmtGo st fuel cs = .error (.missingField f)) ↔
      ∃ f ∈ refsGo fuel cs, List.lookup f st = Option.none := by
  intro fuel
  induction fuel with
  | zero =>
    intro cs
    cases cs with
    | nil => simp [fmtGo, refsGo]
    | cons c rest => simp [fmtGo, refsGo]
  | succ fuel ih =>
    intro cs
    cases cs with
    | nil => simp [fmtGo, refsGo]
    | cons c rest =>
      rw [fmtGo_succ_eq, refsGo_succ_eq]
      by_cases hcl : c == lbrace
      · rw [if_pos hcl, if_pos hcl]
        by_cases hh : rest.head? == some lbrace
        · rw [if_pos hh, if_pos hh, exists_missing_map]
          exact ih rest.tail
        · rw [if_neg hh, if_neg hh]
          by_cases hdrop : (rest.dropWhile (fun x => !(x == rbrace))).isEmpty
          · rw [if_pos hdrop, if_pos hdrop]
            simp
          · rw [if_neg hdrop, if_neg hdrop]
            cases hlook : List.lookup
                ((rest.takeWhile (fun x => !(x == rbrace))).asString) st with
            | none =>
              simp only [hlook]
              constructor
              · intro _h
                exact ⟨_, List.mem_cons_self _ _, hlook⟩
              · intro _h
                exact ⟨_, rfl⟩
            | some v =>
              simp only [hlook, exists_missing_map]
              rw [ih ((rest.dropWhile (fun x => !(x == rbrace))).tail)]
              constructor
              · rintro ⟨f, hf, hfn⟩
                exact ⟨f, List.mem_cons_of_mem _ hf, hfn⟩
              · rintro ⟨f, hf, hfn⟩
                rcases List.mem_cons.mp hf with rfl | hf2
                · rw [hlook] at hfn
                  cases hfn
                · exact ⟨f, hf2, hfn⟩
      · rw [if_neg hcl, if_neg hcl]
        by_cases hcr : c == rbrace
        · rw [if_pos hcr, if_pos hcr]
          by_cases hh : rest.head? == some rbrace
          · rw [if_pos hh, if_pos hh, exists_missing_map]
            exact ih rest.tail
          · rw [if_neg hh, if_neg hh]
            simp
        · rw [if_neg hcr, if_neg hcr, exists_missing_map]
          exact ih rest

/-- C7: the renderer fails with a missing-field error exactly when the
step's prompt template references a field absent from the state; and
rendering the template `n=\x7bn\x7d` against the state `\x7bn: 5\x7d`
yields exactly the task block `CURRENT TASK:` followed by `n=5`, which
contains the substituted text `n=5`. -/
theorem render_missing_field_iff :
    (∀ (sys : String) (dumps : PyVal → Text) (cfg : StepCfg) (st : Dict),
      ((∃ f, render sys dumps cfg st = .error (.missingField f)) ↔
        ∃ f ∈ templateRefs cfg.prompt, List.lookup f st = Option.none)) ∧
    (render "" pyRepr promptCfgN [("n", PyVal.int 5)] =
        .ok ("CURRENT TASK:\nn=5".toList) ∧
      "n=5".toList <:+: "CURRENT TASK:\nn=5".toList) := by
  constructor
  · intro sys dumps cfg st
    by_cases hp : cfg.prompt = ""
    · simp only [render, hp, ne_eq, not_true_eq_false, if_false,
        templateRefs]
      simp [refsGo]
    · have hiff := fmtGo_missing_iff st cfg.prompt.toList.length
        cfg.prompt.toList
      rw [templateRefs] at *
      cases hfmt : pyFormat cfg.prompt st with
      | error e =>
        rw [pyFormat] at hfmt
        simp only [render, hp, ne_eq, not_false_eq_true, if_true, hfmt]
        rw [← hiff]
        rw [pyFormat]
        rw [hfmt]
      | ok t =>
        rw [pyFormat] at hfmt
        simp only [render, hp, ne_eq, not_false_eq_true, if_true, hfmt]
        rw [← hiff, pyFormat, hfmt]
        simp
  · exact ⟨rfl, by decide⟩

/-- Looking a key up in the override image of a dict applies the
override pointwise. -/
theorem lookup_map_override (u : Dict) :
    ∀ (d : Dict) (k : String),
      List.lookup k (d.map fun p => (p.1, (List.lookup p.1 u).getD p.2)) =
        (List.lookup k d).map fun v => (List.lookup k u).getD v := by
  intro d
  induction d with
  | nil => intro k; rfl
  | cons p d ih =>
    intro k
    obtain ⟨k1, v1⟩ := p
    by_cases h : k == k1
    · have hk : k = k1 := eq_of_beq h
      subst hk
      simp [List.lookup, h]
    · simp [List.lookup, h, ih]

/-- Looking a key up in an appended dict tries the left part first. -/
theorem lookup_append (l1 l2 : Dict) (k : String) :
    List.lookup k (l1 ++ l2) = (List.lookup k l1).or (List.lookup k l2) := by
  induction l1 with
  | nil => simp [List.lookup, Option.or]
  | cons p l1 ih =>
    obtain ⟨k1, v1⟩ := p
    by_cases h : k == k1
    · simp [List.lookup, h, Option.or]
    · simp [List.lookup, h, ih]

/-- Looking a key up after filtering out the keys of `d` returns the
original binding when the key is not in `d` and nothing otherwise. -/
theorem lookup_filter_not_in (d : Dict) :
    ∀ (u : Dict) (k : String),
      List.lookup k (u.filter fun p => (List.lookup p.1 d).isNone) =
        if (List.lookup k d).isNone then List.lookup k u else Option.none := by
  intro u
  induction u with
  | nil => intro k; simp [List.lookup]
  | cons p u ih =>
    intro k
    obtain ⟨k1, v1⟩ := p
    by_cases hk : k == k1
    · have hkk : k = k1 := eq_of_beq hk
      subst hkk
      by_cases hd : (List.lookup k d).isNone
      · simp [List.filter, hd, List.lookup, hk]
      · simp [List.filter, hd, List.lookup, ih]
    · by_cases hd : (List.lookup k1 d).isNone
      · simp [List.filter, hd, List.lookup, hk, ih]
      · simp [List.filter, hd, List.lookup, hk, ih]

/-- Lookup in a Python dict merge is the left-biased union: the update's
binding wins and the previous state's binding persists otherwise. -/
theorem lookup_pyMerge (d u : Dict) (k : String) :
    List.lookup k (pyMerge d u) =
      (List.lookup k u).or (List.lookup k d) := by
  unfold pyMerge
  rw [lookup_append, lookup_map_override, lookup_filter_not_in]
  cases hd : List.lookup k d with
  | none =>
    cases hu : List.lookup k u with
    | none => simp [Option.or, Option.isNone]
    | some w => simp [Option.or, Option.isNone, hu]
  | some v =>
    cases hu : List.lookup k u with
    | none => simp [Option.or, Option.isNone, hu]
    | some w => simp [Option.or, Option.isNone, hu]

/-- C3 (amended): the built-in LLM step returns the full input state
shallow-merged with the parsed updates (not only the changed or added
fields); the merge is the left-biased shallow union in which update keys
overwrite and all other previous keys persist; and merging
`\x7ba: 1, b: 2\x7d` with the update `\x7bb: 3, c: 4\x7d` yields
`\x7ba: 1, b: 3, c: 4\x7d`. -/
theorem llm_step_merge_spec :
    (∀ (d u : Dict) (k : String),
      List.lookup k (pyMerge d u) =
        (List.lookup k u).or (List.lookup k d)) ∧
    (∀ (sys : String) (dumps : PyVal → Text) (cfg : StepCfg)
        (invoke : Text → Text) (loads : Text → Except PyExc PyVal)
        (st : Dict) (p : Text) (u : Dict),
      render sys dumps cfg st = .ok p →
      loads (extractTarget (invoke p)) = .ok (.dict u) →
      llmStepCall sys dumps cfg invoke loads st = .ok (pyMerge st u)) ∧
    pyMerge prevState updC3 =
      [("a", PyVal.int 1), ("b", PyVal.int 3), ("c", PyVal.int 4)] := by
  refine ⟨lookup_pyMerge, ?_, rfl⟩
  intro sys dumps cfg invoke loads st p u hr hl
  unfold llmStepCall jsonParse
  simp only [hr, hl]

/-- Closed instance of the amended C3 at the concrete oracles. -/
theorem llm_step_merge_spec_witness :
    llmStepCall "" pyRepr {} invokeC3 loadsC3 prevState =
      .ok (pyMerge prevState updC3) := by
  exact llm_step_merge_spec.2.1 "" pyRepr {} invokeC3 loadsC3 prevState
    [] updC3 rfl rfl

/-- C3 fails as stated: with the parsed update `\x7bb: 3, c: 4\x7d` on
the state `\x7ba: 1, b: 2\x7d`, the LLM step's returned mapping contains
the untouched field `a`, which is neither changed nor added (it does not
occur in the update), so the step does not return only the changed or
added fields. -/
theorem llm_step_full_state_counterexample :
    llmStepCall "" pyRepr {} invokeC3 loadsC3 prevState =
      .ok [("a", PyVal.int 1), ("b", PyVal.int 3), ("c", PyVal.int 4)] ∧
    List.lookup "a" updC3 = Option.none ∧
    List.lookup "a" prevState = some (PyVal.int 1) := by
  exact ⟨rfl, rfl, rfl⟩

end Hobnob
